import Mathlib

/-!
Verification of the deary entry-lifecycle engine (src/lib.rs).

The Rust program is embedded shallowly.  Each operation of `impl Deary`
(`create_entry`, `read_entry`, `update_entry`, `delete_entry`,
`list_entries`, `commit_change`, `gpg_id`, `create_gpg_id_file`) and each
free function (`find_gpg`, `find_editor`, `open_editor`, `decrypt_entry`,
`encrypt_entry`) becomes a Lean function in a monad

  `M α = St → Except Err α × St × List Event`

where `St` is the observable repository state (working directory, git
index, commit list, HEAD) and the trace of `Event`s records, in order,
the externally visible actions (temp-file creation, tool lookups, process
runs, file removal, commits).  Outcomes of the external world — the
`EDITOR` variable, `which` lookups, process spawn/exit results, the bytes
gpg produces — are inputs, collected in an `Env` record that each
operation consumes exactly as the Rust code consumes the corresponding
calls, in source order.  A `?` early return is the monad's error
propagation; state and trace accumulated before the failure are kept.
-/

namespace Deary

/-- File contents (both plaintext and ciphertext) are modelled as
strings; `lib.rs` moves them as UTF-8 text / opaque byte vectors and the
properties verified here never inspect individual bytes. -/
abbrev Content := String

/-- Error taxonomy.  In `lib.rs` every error is collapsed into
`DearyError { message }`; the constructors here record which source
condition produced the message (an io `NotFound`, a generic io error, a
failed `which` lookup, a non-zero child exit, a libgit2 error), which is
exactly the information the original message strings carry. -/
inductive Err
  | ioNotFound
  | ioOther
  | toolNotFound (what : String)
  | toolFailed
  | gitErr
  deriving Repr, DecidableEq

/-- Embedding of the change enum of lib.rs: Add, Edit, Delete. -/
inductive Change
  | Add
  | Edit
  | Delete
  deriving Repr, DecidableEq

/-- The derived `Debug` rendering of `Change`, used by
`format!("{:?} {}", change, file)` in `commit_change`. -/
def Change.debugStr : Change → String
  | .Add => "Add"
  | .Edit => "Edit"
  | .Delete => "Delete"

/-- Embedding of the commit-message format call built in
`commit_change` (lib.rs line 187). -/
def commitMessage (change : Change) (file : String) : String :=
  Change.debugStr change ++ " " ++ file

/-- One git commit: parent ids (indices into the commit list), the
message, and the tree (a snapshot of the index). -/
structure CommitRec where
  parents : List Nat
  message : String
  tree : List (String × Content)
  deriving Repr, DecidableEq

/-- Observable repository state: the working directory and the git index
as association lists (name, content), the commit list (position = commit
id, append-only), and HEAD as the id of the tip commit. -/
structure St where
  workdir : List (String × Content)
  index : List (String × Content)
  commits : List CommitRec
  head : Option Nat
  deriving Repr, DecidableEq

/-- Externally visible actions, in the order the program performs them. -/
inductive Event
  | tmpCreate
  | editorRun
  | readGpgId
  | gpgLookup
  | encryptRun (recipient : String)
  | decryptRun
  | removeFile (name : String)
  | tmpClose
  | commit (message : String)
  deriving Repr, DecidableEq

/-- The current UTC instant to the precision the program can observe: calendar
fields down to seconds, plus sub-second part. -/
structure DateTime where
  year : Nat
  month : Nat
  day : Nat
  hour : Nat
  minute : Nat
  second : Nat
  nanos : Nat
  deriving Repr, DecidableEq

/-- Left-pad the decimal rendering of `n` with zeros to width `w`
(chrono's `%Y`/`%m`/… padding). -/
def padNum (w : Nat) (n : Nat) : String :=
  let s := toString n
  String.mk (List.replicate (w - s.length) '0') ++ s

/-- The timestamp format `%Y%m%d-%H%M%S` applied in `create_entry`. -/
def formatTimestamp (dt : DateTime) : String :=
  padNum 4 dt.year ++ padNum 2 dt.month ++ padNum 2 dt.day ++ "-"
    ++ padNum 2 dt.hour ++ padNum 2 dt.minute ++ padNum 2 dt.second

/-- Two instants fall in the same wall-clock second (UTC, second
resolution): all calendar fields agree, sub-second part free. -/
def sameSecond (a b : DateTime) : Prop :=
  a.year = b.year ∧ a.month = b.month ∧ a.day = b.day ∧
    a.hour = b.hour ∧ a.minute = b.minute ∧ a.second = b.second

instance (a b : DateTime) : Decidable (sameSecond a b) := by
  unfold sameSecond
  infer_instance

/-- Whitespace as `str::trim` removes it; the sources only ever put ASCII
whitespace around the recipient id, so the ASCII subset of Unicode
`White_Space` is modelled. -/
def isWS (c : Char) : Bool :=
  c = ' ' || c = '\t' || c = '\n' || c = '\r'

/-- Rust's `str::trim`: drop whitespace from both ends. -/
def rustTrim (s : String) : String :=
  String.mk (((s.data.dropWhile isWS).reverse.dropWhile isWS).reverse)

/-- Embedding of `str::starts_with(".")` for file names: the first character is a
dot.  (Spelled out character-wise so that concrete runs reduce inside
the kernel.) -/
def startsWithDot (n : String) : Bool :=
  match n.data with
  | [] => false
  | c :: _ => c = '.'

/-- The constant GPG_ID_FILE_NAME of lib.rs, `".gpg_id"`. -/
def GPG_ID_FILE_NAME : String := ".gpg_id"

/-- The constant GPG_OPTS from lib.rs lines 19–24: the fixed flags passed to
every gpg invocation (`--yes` forces overwrite of an existing output
file). -/
def GPG_OPTS : List String :=
  ["--quiet", "--yes", "--compress-algo=none", "--no-encrypt-to"]

/-- Outcomes of the external world consumed by one operation, in source
order: temp-file allocation, `$EDITOR` / `which("vim")`, editor
spawn/exit, `which("gpg")`, gpg spawn/exit and its products, `read_dir`,
and libgit2 signature/commit results.  `decryptExit` is the exit status
of `gpg --decrypt`; lib.rs line 260–265 never examines it (it takes
`.output()?.stdout`), which is itself one of the verified facts. -/
structure Env where
  now : DateTime
  tmpCreateOk : Bool
  tmpWriteOk : Bool
  editorVar : Option String
  vimPath : Option String
  editorSpawnOk : Bool
  editorExitOk : Bool
  gpgPath : Option String
  encryptSpawnOk : Bool
  encryptExitOk : Bool
  encryptResult : Content
  decryptSpawnOk : Bool
  decryptExit : Bool
  decryptStdout : Content
  readDirOk : Bool
  signatureOk : Bool
  commitOk : Bool
  deriving Repr, DecidableEq

/-- The computation monad: state in, `(result, state out, event trace)`
out.  On error the state reached so far and the trace so far are kept —
exactly what a Rust `?` return leaves behind. -/
def M (α : Type) : Type := St → Except Err α × St × List Event

/-- Monadic sequencing: run `x`; on success feed its value to `f` and
append the traces, on error stop with `x`'s state and trace. -/
def mBind {α β : Type} (x : M α) (f : α → M β) : M β := fun s =>
  match x s with
  | (Except.ok a, s₁, t₁) =>
    match f a s₁ with
    | (r, s₂, t₂) => (r, s₂, t₁ ++ t₂)
  | (Except.error e, s₁, t₁) => (Except.error e, s₁, t₁)

def mPure {α : Type} (a : α) : M α := fun s => (Except.ok a, s, [])

def mThrow {α : Type} (e : Err) : M α := fun s => (Except.error e, s, [])

def mGet : M St := fun s => (Except.ok s, s, [])

def mSet (s' : St) : M Unit := fun _ => (Except.ok (), s', [])

def mTell (ev : Event) : M Unit := fun s => (Except.ok (), s, [ev])

/-- Association-list lookup on (file name, content) lists. -/
def lookupFile (l : List (String × Content)) (k : String) : Option Content :=
  match l with
  | [] => none
  | (k', v) :: t => if k' = k then some v else lookupFile t k

/-- Association-list update/insert: overwrite the entry for `k` if
present, append it otherwise. -/
def setFile (l : List (String × Content)) (k : String) (v : Content) :
    List (String × Content) :=
  match l with
  | [] => [(k, v)]
  | (k', v') :: t => if k' = k then (k, v) :: t else (k', v') :: setFile t k v

/-- Association-list removal of every entry named `k`. -/
def dropFile (l : List (String × Content)) (k : String) :
    List (String × Content) :=
  l.filter (fun p => !(p.1 == k))

/-! ### The free functions of lib.rs -/

/-- Embedding of `find_gpg` (lib.rs 231–239): `which::which("gpg")`; `Ok(path)` when
found, an actionable error when not.  The lookup itself is traced. -/
def find_gpg (env : Env) : M String :=
  mBind (mTell Event.gpgLookup) fun _ =>
    match env.gpgPath with
    | some g => mPure g
    | none => mThrow (Err.toolNotFound "gpg executable not found in PATH")

/-- Embedding of `find_editor` (lib.rs 218–229): `$EDITOR` if set, else
`which::which("vim")`, else an error. -/
def find_editor (env : Env) : M String :=
  match env.editorVar with
  | some e => mPure e
  | none =>
    match env.vimPath with
    | some v => mPure v
    | none => mThrow (Err.toolNotFound "EDITOR is not set, and vim not found in PATH")

/-- Embedding of `open_editor` (lib.rs 241–253): find the editor, spawn it on the
temp file, wait; non-zero exit status is an error. -/
def open_editor (env : Env) : M Unit :=
  mBind (find_editor env) fun _editor =>
    if env.editorSpawnOk then
      mBind (mTell Event.editorRun) fun _ =>
        if env.editorExitOk then mPure () else mThrow Err.toolFailed
    else mThrow Err.ioOther

/-- Embedding of `decrypt_entry` (lib.rs 255–266): find gpg, run
`gpg GPG_OPTS --decrypt path` with `.output()`, and return `.stdout`.
The child's exit status (`env.decryptExit`) is NOT consulted — the
source returns `Ok(output.stdout)` unconditionally once the process
could be spawned, so a failed decryption yields `Ok` of whatever
(possibly empty) bytes gpg printed. -/
def decrypt_entry (env : Env) (_path : String) : M Content :=
  mBind (find_gpg env) fun _gpg =>
    if env.decryptSpawnOk then
      mBind (mTell Event.decryptRun) fun _ => mPure env.decryptStdout
    else mThrow Err.ioOther

/-- Embedding of `encrypt_entry` (lib.rs 268–288): find gpg, run
`gpg GPG_OPTS --encrypt --recipient gpg_id.trim() --output out inp`,
wait; on zero exit the ciphertext stands at `output_name` in the
working directory (`--yes` in `GPG_OPTS` lets gpg overwrite an existing
file there), on non-zero exit an error.  The traced `encryptRun` event
carries the recipient argument actually passed to gpg. -/
def encrypt_entry (env : Env) (output_name : String) (gpg_id : String) : M Unit :=
  mBind (find_gpg env) fun _gpg =>
    if env.encryptSpawnOk then
      mBind (mTell (Event.encryptRun (rustTrim gpg_id))) fun _ =>
        if env.encryptExitOk then
          mBind mGet fun st =>
            mSet { st with workdir := setFile st.workdir output_name env.encryptResult }
        else mThrow Err.toolFailed
    else mThrow Err.ioOther

/-! ### The methods of `impl Deary` -/

/-- Embedding of `Deary::gpg_id` (lib.rs 203–208): open `.gpg_id` in the working
directory and read it to a string in full; io `NotFound` if absent. -/
def gpg_id : M String :=
  mBind mGet fun st =>
    match lookupFile st.workdir GPG_ID_FILE_NAME with
    | some content => mBind (mTell Event.readGpgId) fun _ => mPure content
    | none => mThrow Err.ioNotFound

/-- Embedding of `Deary::commit_change` (lib.rs 160–193): update the index (remove
the path for `Delete`, add it — reading the working-directory file —
otherwise), write the index, write the tree, build the signature; for a
non-initial commit resolve HEAD to the single parent, for the initial
commit use no parent; then commit, advancing HEAD to the new commit. -/
def commit_change (env : Env) (file : String) (change : Change) (initial : Bool) : M Unit :=
  mBind mGet fun st =>
  mBind
    (match change with
     | Change.Delete => mPure (dropFile st.index file)
     | _ =>
       match lookupFile st.workdir file with
       | some c => mPure (setFile st.index file c)
       | none => mThrow Err.gitErr) fun newIndex =>
  mBind (mSet { st with index := newIndex }) fun _ =>
  mBind (if env.signatureOk then mPure () else mThrow Err.gitErr) fun _ =>
  mBind
    (if initial then mPure ([] : List Nat)
     else
       match st.head with
       | some h => mPure [h]
       | none => mThrow Err.gitErr) fun parents =>
  if env.commitOk then
    mBind mGet fun st' =>
    mBind (mSet { st' with
        commits := st'.commits ++
          [{ parents := parents, message := commitMessage change file, tree := newIndex }],
        head := some st'.commits.length }) fun _ =>
    mTell (Event.commit (commitMessage change file))
  else mThrow Err.gitErr

/-- Embedding of `Deary::create_gpg_id_file` (lib.rs 146–150): write the recipient id
into `.gpg_id` and record the initial commit for it. -/
def create_gpg_id_file (env : Env) (gid : String) : M Unit :=
  mBind mGet fun st =>
  mBind (mSet { st with workdir := setFile st.workdir GPG_ID_FILE_NAME gid }) fun _ =>
  commit_change env GPG_ID_FILE_NAME Change.Add true

/-- Embedding of `Deary::create_entry` (lib.rs 95–106), statement by statement:
allocate the temp file in `/dev/shm`, take `Utc::now()` and format the
entry name, open the editor on the temp file, read `.gpg_id` (argument
of the `encrypt_entry` call), encrypt the temp file to the entry path,
close the temp file (`.close().unwrap()` — modelled as succeeding),
record an `Add` commit. -/
def create_entry (env : Env) : M Unit :=
  mBind (if env.tmpCreateOk then mTell Event.tmpCreate else mThrow Err.ioOther) fun _ =>
  mBind (open_editor env) fun _ =>
  mBind gpg_id fun gid =>
  mBind (encrypt_entry env (formatTimestamp env.now) gid) fun _ =>
  mBind (mTell Event.tmpClose) fun _ =>
  commit_change env (formatTimestamp env.now) Change.Add false

/-- Embedding of `Deary::read_entry` (lib.rs 108–111): decrypt the entry at
`repo_dir/name`, returning the bytes. -/
def read_entry (env : Env) (name : String) : M Content :=
  decrypt_entry env name

/-- Embedding of `Deary::update_entry` (lib.rs 113–125): decrypt the existing entry,
allocate a temp file and write the plaintext into it, open the editor,
read `.gpg_id`, re-encrypt over the stored path, close the temp file,
record an `Edit` commit. -/
def update_entry (env : Env) (name : String) : M Unit :=
  mBind (decrypt_entry env name) fun _text =>
  mBind (if env.tmpCreateOk then mTell Event.tmpCreate else mThrow Err.ioOther) fun _ =>
  mBind (if env.tmpWriteOk then mPure () else mThrow Err.ioOther) fun _ =>
  mBind (open_editor env) fun _ =>
  mBind gpg_id fun gid =>
  mBind (encrypt_entry env name gid) fun _ =>
  mBind (mTell Event.tmpClose) fun _ =>
  commit_change env name Change.Edit false

/-- Embedding of `Deary::delete_entry` (lib.rs 127–131): `remove_file` on the entry
path — io `NotFound` when the file does not exist — then a `Delete`
commit. -/
def delete_entry (env : Env) (name : String) : M Unit :=
  mBind mGet fun st =>
    match lookupFile st.workdir name with
    | none => mThrow Err.ioNotFound
    | some _ =>
      mBind (mSet { st with workdir := dropFile st.workdir name }) fun _ =>
      mBind (mTell (Event.removeFile name)) fun _ =>
      commit_change env name Change.Delete false

/-- Embedding of `Deary::list_entries` (lib.rs 133–144): `read_dir` on the working
directory, then push every file name that does not start with `.`, in
enumeration order. -/
def list_entries (env : Env) : M (List String) :=
  if env.readDirOk then
    mBind mGet fun st =>
      mPure (st.workdir.foldl
        (fun acc p => if startsWithDot p.1 then acc else acc ++ [p.1]) [])
  else mThrow Err.ioOther

/-! ### Predicates used by the verified properties -/

/-- No commit was recorded in the trace `t`. -/
def noCommitEv (t : List Event) : Prop := ∀ m, Event.commit m ∉ t

/-- No encryption run appears in the trace `t`. -/
def noEncryptEv (t : List Event) : Prop := ∀ r, Event.encryptRun r ∉ t

/-- The computation never moves the commit history: whatever the result,
the commit list and HEAD are unchanged and no commit event is traced.
All the steps of an operation that precede its `commit_change` call
satisfy this. -/
def preservesHist {α : Type} (x : M α) : Prop :=
  ∀ s r s' t, x s = (r, s', t) →
    s'.commits = s.commits ∧ s'.head = s.head ∧ noCommitEv t

/-- On a failing run the commit history is left at its prior state and
no commit event is traced. -/
def errKeepsHist {α : Type} (x : M α) : Prop :=
  ∀ s e s' t, x s = (Except.error e, s', t) →
    s'.commits = s.commits ∧ s'.head = s.head ∧ noCommitEv t

/-- A fully cooperative environment for concrete runs: every external
step succeeds. -/
def env0 : Env :=
  { now := { year := 2020, month := 1, day := 2, hour := 3, minute := 4,
             second := 5, nanos := 0 }
    tmpCreateOk := true
    tmpWriteOk := true
    editorVar := some "vi"
    vimPath := some "/usr/bin/vim"
    editorSpawnOk := true
    editorExitOk := true
    gpgPath := some "/usr/bin/gpg"
    encryptSpawnOk := true
    encryptExitOk := true
    encryptResult := "CIPHERTEXT"
    decryptSpawnOk := true
    decryptExit := true
    decryptStdout := "PLAINTEXT"
    readDirOk := true
    signatureOk := true
    commitOk := true }

/-- A freshly initialized repository: `.gpg_id` committed, HEAD at the
initial commit. -/
def st0 : St :=
  { workdir := [(GPG_ID_FILE_NAME, "key@example.com\n")]
    index := [(GPG_ID_FILE_NAME, "key@example.com\n")]
    commits := [{ parents := [], message := "Add .gpg_id",
                  tree := [(GPG_ID_FILE_NAME, "key@example.com\n")] }]
    head := some 0 }

/-- State `st0` with one journal entry present in the working directory. -/
def st1 : St :=
  { st0 with workdir := st0.workdir ++ [("20200102-030405", "OLDCIPHER")] }

/-! ## Monad-level computation and inversion lemmas -/

theorem mBind_ok {α β : Type} {x : M α} {f : α → M β} {s s₁ sf : St}
    {a : α} {rf : Except Err β} {t₁ tf : List Event}
    (hx : x s = (Except.ok a, s₁, t₁)) (hf : f a s₁ = (rf, sf, tf)) :
    mBind x f s = (rf, sf, t₁ ++ tf) := by
  simp only [mBind, hx, hf]

theorem mBind_err {α β : Type} {x : M α} {f : α → M β} {s s₁ : St}
    {e : Err} {t₁ : List Event}
    (hx : x s = (Except.error e, s₁, t₁)) :
    mBind x f s = (Except.error e, s₁, t₁) := by
  simp only [mBind, hx]

theorem mBind_inv {α β : Type} {x : M α} {f : α → M β} {s s' : St}
    {r : Except Err β} {t : List Event}
    (h : mBind x f s = (r, s', t)) :
    (∃ e, r = Except.error e ∧ x s = (Except.error e, s', t)) ∨
    (∃ a s₁ t₁ t₂, x s = (Except.ok a, s₁, t₁) ∧ f a s₁ = (r, s', t₂) ∧
      t = t₁ ++ t₂) := by
  rcases hx : x s with ⟨rx, sx, tx⟩
  cases rx with
  | ok a =>
    rcases hf : f a sx with ⟨rf, sf, tf⟩
    rw [mBind_ok hx hf] at h
    cases h
    right
    exact ⟨a, sx, tx, tf, rfl, hf, rfl⟩
  | error e =>
    rw [mBind_err hx] at h
    cases h
    left
    exact ⟨e, rfl, rfl⟩

theorem mBind_tell_trace {α : Type} {e : Event} {k : Unit → M α}
    {s s' : St} {r : Except Err α} {t : List Event}
    (h : mBind (mTell e) k s = (r, s', t)) : ∃ t', t = e :: t' := by
  rcases hk : k () s with ⟨rk, sk, tk⟩
  rw [mBind_ok rfl hk] at h
  cases h
  exact ⟨tk, rfl⟩

/-! ## Inversion lemmas for the embedded functions -/

theorem find_gpg_inv {env : Env} {s s' : St} {r : Except Err String}
    {t : List Event} (h : find_gpg env s = (r, s', t)) :
    s' = s ∧ t = [Event.gpgLookup] := by
  rcases hg : env.gpgPath with _ | g <;>
    simp only [find_gpg, hg, mBind, mTell, mPure, mThrow, List.append_nil] at h <;>
    cases h <;> exact ⟨rfl, rfl⟩

theorem find_editor_inv {env : Env} {s s' : St} {r : Except Err String}
    {t : List Event} (h : find_editor env s = (r, s', t)) :
    s' = s ∧ t = [] := by
  rcases hev : env.editorVar with _ | e <;>
    rcases hvp : env.vimPath with _ | v <;>
    simp only [find_editor, hev, hvp, mPure, mThrow] at h <;>
    cases h <;> exact ⟨rfl, rfl⟩

theorem open_editor_inv {env : Env} {s s' : St} {r : Except Err Unit}
    {t : List Event} (h : open_editor env s = (r, s', t)) :
    s' = s ∧ (t = [] ∨ t = [Event.editorRun]) := by
  unfold open_editor at h
  rcases mBind_inv h with ⟨e, _, hx⟩ | ⟨a, s₁, t₁, t₂, hx, hf, ht⟩
  · obtain ⟨rfl, rfl⟩ := find_editor_inv hx
    exact ⟨rfl, Or.inl rfl⟩
  · obtain ⟨rfl, rfl⟩ := find_editor_inv hx
    rcases hsp : env.editorSpawnOk <;>
      rcases hex : env.editorExitOk <;>
      simp only [hsp, hex, Bool.false_eq_true, if_true, if_false, mBind, mTell,
        mPure, mThrow, List.append_nil, List.nil_append] at hf <;>
      cases hf <;> simp_all

theorem gpg_id_inv {s s' : St} {r : Except Err String} {t : List Event}
    (h : gpg_id s = (r, s', t)) :
    s' = s ∧ (t = [] ∨ t = [Event.readGpgId]) ∧
      ∀ g, r = Except.ok g → lookupFile s.workdir GPG_ID_FILE_NAME = some g := by
  rcases hl : lookupFile s.workdir GPG_ID_FILE_NAME with _ | c <;>
    simp only [gpg_id, mBind, mGet, mTell, mPure, mThrow, hl,
      List.append_nil, List.nil_append] at h <;>
    cases h
  · exact ⟨rfl, Or.inl rfl, (by intro g hg; cases hg)⟩
  · exact ⟨rfl, Or.inr rfl, (by intro g hg; cases hg; rfl)⟩

theorem decrypt_entry_inv {env : Env} {p : String} {s s' : St}
    {r : Except Err Content} {t : List Event}
    (h : decrypt_entry env p s = (r, s', t)) :
    s' = s ∧ (t = [Event.gpgLookup] ∨ t = [Event.gpgLookup, Event.decryptRun]) := by
  unfold decrypt_entry at h
  rcases mBind_inv h with ⟨e, _, hx⟩ | ⟨a, s₁, t₁, t₂, hx, hf, ht⟩
  · obtain ⟨rfl, rfl⟩ := find_gpg_inv hx
    exact ⟨rfl, Or.inl rfl⟩
  · obtain ⟨rfl, rfl⟩ := find_gpg_inv hx
    rcases hsp : env.decryptSpawnOk <;>
      simp only [hsp, Bool.false_eq_true, if_true, if_false, mBind, mTell,
        mPure, mThrow, List.append_nil, List.nil_append] at hf <;>
      cases hf <;> simp_all

theorem encrypt_entry_inv {env : Env} {name gid : String} {s s' : St}
    {r : Except Err Unit} {t : List Event}
    (h : encrypt_entry env name gid s = (r, s', t)) :
    (t = [Event.gpgLookup] ∨
      t = [Event.gpgLookup, Event.encryptRun (rustTrim gid)]) ∧
    (r = Except.ok () →
      s' = { s with workdir := setFile s.workdir name env.encryptResult }) ∧
    (∀ e, r = Except.error e → s' = s) ∧
    s'.commits = s.commits ∧ s'.head = s.head ∧ s'.index = s.index := by
  unfold encrypt_entry at h
  rcases mBind_inv h with ⟨e, he, hx⟩ | ⟨a, s₁, t₁, t₂, hx, hf, ht⟩
  · obtain ⟨rfl, rfl⟩ := find_gpg_inv hx
    subst he
    exact ⟨Or.inl rfl, (by intro hg; cases hg), fun _ _ => rfl, rfl, rfl, rfl⟩
  · obtain ⟨rfl, rfl⟩ := find_gpg_inv hx
    rcases hsp : env.encryptSpawnOk <;>
      rcases hex : env.encryptExitOk <;>
      simp only [hsp, hex, Bool.false_eq_true, if_true, if_false, mBind, mTell,
        mGet, mSet, mPure, mThrow, List.append_nil, List.nil_append] at hf <;>
      cases hf <;> subst ht <;> simp_all

theorem commit_change_err_inv {env : Env} {file : String} {change : Change}
    {initial : Bool} {s s' : St} {e : Err} {t : List Event}
    (h : commit_change env file change initial s = (Except.error e, s', t)) :
    s'.commits = s.commits ∧ s'.head = s.head ∧ t = [] := by
  cases change <;>
    rcases hl : lookupFile s.workdir file with _ | c <;>
    rcases hsig : env.signatureOk <;>
    cases initial <;>
    rcases hh : s.head with _ | p <;>
    rcases hc : env.commitOk <;>
    simp [commit_change, mBind, mGet, mSet, mPure, mThrow, mTell,
      hl, hsig, hh, hc] at h <;>
    (try (obtain ⟨h1, h2, h3⟩ := h; subst h2)) <;>
    simp_all

theorem commit_change_ok_inv {env : Env} {file : String} {change : Change}
    {initial : Bool} {s s' : St} {t : List Event}
    (h : commit_change env file change initial s = (Except.ok (), s', t)) :
    ∃ newIndex parents,
      s' = { workdir := s.workdir, index := newIndex,
             commits := s.commits ++
               [{ parents := parents, message := commitMessage change file,
                  tree := newIndex }],
             head := some s.commits.length } ∧
      t = [Event.commit (commitMessage change file)] ∧
      (initial = true → parents = []) ∧
      (initial = false → ∃ p, s.head = some p ∧ parents = [p]) ∧
      (change = Change.Delete → newIndex = dropFile s.index file) ∧
      (change ≠ Change.Delete →
        ∃ c, lookupFile s.workdir file = some c ∧
          newIndex = setFile s.index file c) := by
  cases change <;>
    rcases hl : lookupFile s.workdir file with _ | c <;>
    rcases hsig : env.signatureOk <;>
    cases initial <;>
    rcases hh : s.head with _ | p <;>
    rcases hc : env.commitOk <;>
    simp [commit_change, mBind, mGet, mSet, mPure, mThrow, mTell,
      hl, hsig, hh, hc] at h <;>
    (try (obtain ⟨h2, h3⟩ := h; subst h2; subst h3)) <;>
    refine ⟨_, _, rfl, rfl, ?_, ?_, ?_, ?_⟩ <;>
    simp_all

/-! ## History-preservation infrastructure -/

theorem preservesHist_mBind {α β : Type} {x : M α} {f : α → M β}
    (hx : preservesHist x) (hf : ∀ a, preservesHist (f a)) :
    preservesHist (mBind x f) := by
  intro s r s' t h
  rcases mBind_inv h with ⟨e, he, hx'⟩ | ⟨a, s₁, t₁, t₂, hx', hf', rfl⟩
  · exact hx s _ s' t hx'
  · obtain ⟨h1, h2, h3⟩ := hx s _ s₁ t₁ hx'
    obtain ⟨g1, g2, g3⟩ := hf a s₁ _ s' t₂ hf'
    refine ⟨g1.trans h1, g2.trans h2, ?_⟩
    intro m hm
    rcases List.mem_append.mp hm with hm | hm
    exacts [h3 m hm, g3 m hm]

theorem errKeepsHist_mBind {α β : Type} {x : M α} {f : α → M β}
    (hx : preservesHist x) (hf : ∀ a, errKeepsHist (f a)) :
    errKeepsHist (mBind x f) := by
  intro s e s' t h
  rcases mBind_inv h with ⟨e', he, hx'⟩ | ⟨a, s₁, t₁, t₂, hx', hf', rfl⟩
  · cases he
    exact hx s _ s' t hx'
  · obtain ⟨h1, h2, h3⟩ := hx s _ s₁ t₁ hx'
    obtain ⟨g1, g2, g3⟩ := hf a s₁ e s' t₂ hf'
    refine ⟨g1.trans h1, g2.trans h2, ?_⟩
    intro m hm
    rcases List.mem_append.mp hm with hm | hm
    exacts [h3 m hm, g3 m hm]

theorem preservesHist_tmpStep (env : Env) :
    preservesHist (if env.tmpCreateOk then mTell Event.tmpCreate
                   else mThrow Err.ioOther) := by
  intro s r s' t h
  rcases hc : env.tmpCreateOk <;> simp [hc, mTell, mThrow] at h <;>
    obtain ⟨-, rfl, rfl⟩ := h <;>
    exact ⟨rfl, rfl, by intro m hm; simp_all [noCommitEv]⟩

theorem preservesHist_tmpWrite (env : Env) :
    preservesHist (if env.tmpWriteOk then mPure () else mThrow Err.ioOther) := by
  intro s r s' t h
  rcases hc : env.tmpWriteOk <;> simp [hc, mPure, mThrow] at h <;>
    obtain ⟨-, rfl, rfl⟩ := h <;>
    exact ⟨rfl, rfl, by intro m hm; simp_all [noCommitEv]⟩

theorem preservesHist_open_editor (env : Env) :
    preservesHist (open_editor env) := by
  intro s r s' t h
  obtain ⟨rfl, ht⟩ := open_editor_inv h
  refine ⟨rfl, rfl, ?_⟩
  intro m hm
  rcases ht with rfl | rfl <;> simp_all

theorem preservesHist_gpg_id : preservesHist gpg_id := by
  intro s r s' t h
  obtain ⟨rfl, ht, -⟩ := gpg_id_inv h
  refine ⟨rfl, rfl, ?_⟩
  intro m hm
  rcases ht with rfl | rfl <;> simp_all

theorem preservesHist_decrypt (env : Env) (p : String) :
    preservesHist (decrypt_entry env p) := by
  intro s r s' t h
  obtain ⟨rfl, ht⟩ := decrypt_entry_inv h
  refine ⟨rfl, rfl, ?_⟩
  intro m hm
  rcases ht with rfl | rfl <;> simp_all

theorem preservesHist_encrypt (env : Env) (name gid : String) :
    preservesHist (encrypt_entry env name gid) := by
  intro s r s' t h
  obtain ⟨ht, -, -, h1, h2, -⟩ := encrypt_entry_inv h
  refine ⟨h1, h2, ?_⟩
  intro m hm
  rcases ht with rfl | rfl <;> simp_all

theorem preservesHist_tmpClose : preservesHist (mTell Event.tmpClose) := by
  intro s r s' t h
  simp [mTell] at h
  obtain ⟨-, rfl, rfl⟩ := h
  exact ⟨rfl, rfl, by intro m hm; simp_all⟩

theorem errKeepsHist_commit_change (env : Env) (file : String)
    (change : Change) (initial : Bool) :
    errKeepsHist (commit_change env file change initial) := by
  intro s e s' t h
  obtain ⟨h1, h2, rfl⟩ := commit_change_err_inv h
  exact ⟨h1, h2, by intro m hm; cases hm⟩

theorem errKeepsHist_create (env : Env) : errKeepsHist (create_entry env) := by
  unfold create_entry
  refine errKeepsHist_mBind (preservesHist_tmpStep env) fun _ => ?_
  refine errKeepsHist_mBind (preservesHist_open_editor env) fun _ => ?_
  refine errKeepsHist_mBind preservesHist_gpg_id fun gid => ?_
  refine errKeepsHist_mBind (preservesHist_encrypt env _ gid) fun _ => ?_
  refine errKeepsHist_mBind preservesHist_tmpClose fun _ => ?_
  exact errKeepsHist_commit_change env _ Change.Add false

theorem errKeepsHist_update (env : Env) (name : String) :
    errKeepsHist (update_entry env name) := by
  unfold update_entry
  refine errKeepsHist_mBind (preservesHist_decrypt env name) fun _ => ?_
  refine errKeepsHist_mBind (preservesHist_tmpStep env) fun _ => ?_
  refine errKeepsHist_mBind (preservesHist_tmpWrite env) fun _ => ?_
  refine errKeepsHist_mBind (preservesHist_open_editor env) fun _ => ?_
  refine errKeepsHist_mBind preservesHist_gpg_id fun gid => ?_
  refine errKeepsHist_mBind (preservesHist_encrypt env name gid) fun _ => ?_
  refine errKeepsHist_mBind preservesHist_tmpClose fun _ => ?_
  exact errKeepsHist_commit_change env name Change.Edit false

theorem errKeepsHist_delete (env : Env) (name : String) :
    errKeepsHist (delete_entry env name) := by
  intro s e s' t h
  rcases hl : lookupFile s.workdir name with _ | c
  · simp [delete_entry, mBind, mGet, mThrow, hl] at h
    obtain ⟨-, rfl, rfl⟩ := h
    exact ⟨rfl, rfl, by intro m hm; cases hm⟩
  · rcases hcc : commit_change env name Change.Delete false
        { s with workdir := dropFile s.workdir name } with ⟨rc, sc, tc⟩
    simp [delete_entry, mBind, mGet, mSet, mTell, hl, hcc] at h
    obtain ⟨hrc, rfl, rfl⟩ := h
    rw [hrc] at hcc
    obtain ⟨h1, h2, rfl⟩ := commit_change_err_inv hcc
    refine ⟨h1, h2, ?_⟩
    intro m hm
    simp at hm

/-! ## Claim theorems -/

/-- C2: for create, update and delete, if any step preceding the commit
fails, no commit is recorded: on a failing run the commit list and HEAD
are exactly what they were before the operation and the trace holds no
commit event (the commit step runs only after every preceding step of
the operation has succeeded). -/
theorem no_partial_commit_on_failure (env : Env) (name : String) :
    errKeepsHist (create_entry env) ∧ errKeepsHist (update_entry env name) ∧
      errKeepsHist (delete_entry env name) :=
  ⟨errKeepsHist_create env, errKeepsHist_update env name,
    errKeepsHist_delete env name⟩

/-- Witness for C2: a concrete failing delete (missing entry) leaves the
history of `st0` untouched and records nothing. -/
theorem no_partial_commit_on_failure_witness :
    st0.commits = st0.commits ∧ st0.head = st0.head ∧ noCommitEv [] :=
  (no_partial_commit_on_failure env0 "missing").2.2 st0 Err.ioNotFound st0 []
    (by rfl)

/-- C3: every successful `commit_change` appends exactly one commit
(count strictly +1); when the call is not the initial commit, the new
commit has exactly one parent and it is the commit HEAD named before the
call; the initial commit has no parent. -/
theorem commit_change_one_commit_parent_is_prior_head (env : Env)
    (file : String) (change : Change) (initial : Bool) (s s' : St)
    (t : List Event)
    (h : commit_change env file change initial s = (Except.ok (), s', t)) :
    s'.commits.length = s.commits.length + 1 ∧
    ∃ c, s'.commits = s.commits ++ [c] ∧
      (initial = false → ∃ p, s.head = some p ∧ c.parents = [p]) ∧
      (initial = true → c.parents = []) := by
  obtain ⟨ni, ps, rfl, -, hi, hni, -, -⟩ := commit_change_ok_inv h
  exact ⟨by simp,
    { parents := ps, message := commitMessage change file, tree := ni },
    by simp, hni, hi⟩

/-- Witness for C3: a concrete successful non-initial Add commit on
`st1`. -/
theorem commit_change_one_commit_parent_is_prior_head_witness :
    (commit_change env0 "20200102-030405" Change.Add false st1).2.1.commits.length
        = st1.commits.length + 1 ∧
    ∃ c, (commit_change env0 "20200102-030405" Change.Add false st1).2.1.commits
        = st1.commits ++ [c] ∧
      (false = false → ∃ p, st1.head = some p ∧ c.parents = [p]) ∧
      (false = true → c.parents = []) :=
  commit_change_one_commit_parent_is_prior_head env0 "20200102-030405"
    Change.Add false st1 _ _ (by rfl)

/-- C8: the message of the commit recorded by `commit_change` is exactly
"Add <name>", "Edit <name>" or "Delete <name>" according to the change
kind — the change-kind word, one space, the name — and nothing else. -/
theorem commit_message_is_kind_space_name (env : Env) (file : String)
    (change : Change) (initial : Bool) (s s' : St) (t : List Event)
    (h : commit_change env file change initial s = (Except.ok (), s', t)) :
    ∃ c, s'.commits = s.commits ++ [c] ∧
      c.message = (match change with
        | Change.Add => "Add " ++ file
        | Change.Edit => "Edit " ++ file
        | Change.Delete => "Delete " ++ file) ∧
      t = [Event.commit c.message] := by
  obtain ⟨ni, ps, rfl, ht, -, -, -, -⟩ := commit_change_ok_inv h
  refine ⟨_, rfl, ?_, ?_⟩
  · cases change <;> rfl
  · exact ht

/-- Witness for C8: the concrete Add commit on `st1` carries the message
"Add 20200102-030405". -/
theorem commit_message_is_kind_space_name_witness :
    ∃ c, (commit_change env0 "20200102-030405" Change.Add false st1).2.1.commits
        = st1.commits ++ [c] ∧
      c.message = (match Change.Add with
        | Change.Add => "Add " ++ "20200102-030405"
        | Change.Edit => "Edit " ++ "20200102-030405"
        | Change.Delete => "Delete " ++ "20200102-030405") ∧
      (commit_change env0 "20200102-030405" Change.Add false st1).2.2
        = [Event.commit c.message] :=
  commit_message_is_kind_space_name env0 "20200102-030405" Change.Add false
    st1 _ _ (by rfl)

/-- C4: deleting an entry whose working-directory file does not exist
fails with the io NotFound error, mutates nothing and records no commit;
and in any delete run, a commit can only appear in the trace after the
file-removal event (removal strictly precedes the commit step). -/
theorem delete_missing_is_notfound_no_commit (env : Env) (name : String)
    (s : St) :
    (lookupFile s.workdir name = none →
      delete_entry env name s = (Except.error Err.ioNotFound, s, [])) ∧
    (∀ r s' t, delete_entry env name s = (r, s', t) →
      ∀ m, Event.commit m ∈ t → t.head? = some (Event.removeFile name)) := by
  constructor
  · intro hl
    simp [delete_entry, mBind, mGet, mThrow, hl]
  · intro r s' t h m hm
    rcases hl : lookupFile s.workdir name with _ | c
    · simp [delete_entry, mBind, mGet, mThrow, hl] at h
      obtain ⟨-, -, rfl⟩ := h
      cases hm
    · rcases hcc : commit_change env name Change.Delete false
          { s with workdir := dropFile s.workdir name } with ⟨rc, sc, tc⟩
      simp [delete_entry, mBind, mGet, mSet, mTell, hl, hcc] at h
      obtain ⟨-, -, rfl⟩ := h
      rfl

/-- Witness for C4: deleting the absent name "missing" from `st0` fails
with NotFound and records nothing. -/
theorem delete_missing_is_notfound_no_commit_witness :
    delete_entry env0 "missing" st0 = (Except.error Err.ioNotFound, st0, []) :=
  (delete_missing_is_notfound_no_commit env0 "missing" st0).1 (by rfl)

/-- The push loop of `list_entries` builds exactly the filter of the
enumerated names by "does not start with a dot". -/
theorem foldl_push_eq_filter (l : List (String × Content)) (acc : List String) :
    l.foldl (fun acc p => if startsWithDot p.1 then acc else acc ++ [p.1]) acc
      = acc ++ (l.map Prod.fst).filter (fun n => !(startsWithDot n)) := by
  induction l generalizing acc with
  | nil => simp
  | cons p tl ih =>
    by_cases hp : startsWithDot p.1 = true
    · simp [hp, ih]
    · simp [hp, ih]

/-- C6: read and list are pure queries: whatever they return, the
repository state (working directory, index, commit list, HEAD) is left
exactly as it was and no commit event is recorded. -/
theorem read_and_list_are_pure (env : Env) (name : String) (s : St) :
    (∀ r s' t, read_entry env name s = (r, s', t) → s' = s ∧ noCommitEv t) ∧
    (∀ r s' t, list_entries env s = (r, s', t) → s' = s ∧ noCommitEv t) := by
  constructor
  · intro r s' t h
    obtain ⟨rfl, ht⟩ := decrypt_entry_inv h
    refine ⟨rfl, ?_⟩
    intro m hm
    rcases ht with rfl | rfl <;> simp_all
  · intro r s' t h
    rcases hrd : env.readDirOk <;>
      simp [list_entries, mBind, mGet, mPure, mThrow, hrd] at h <;>
      obtain ⟨-, rfl, rfl⟩ := h <;>
      exact ⟨rfl, by intro m hm; cases hm⟩

/-- Witness for C6: reading and listing on the concrete state `st1`
leave it unchanged with no commit event. -/
theorem read_and_list_are_pure_witness :
    (st1 = st1 ∧ noCommitEv [Event.gpgLookup, Event.decryptRun]) ∧
      (st1 = st1 ∧ noCommitEv []) :=
  ⟨(read_and_list_are_pure env0 "20200102-030405" st1).1
      (Except.ok "PLAINTEXT") st1 [Event.gpgLookup, Event.decryptRun] (by rfl),
    (read_and_list_are_pure env0 "20200102-030405" st1).2
      (Except.ok ["20200102-030405"]) st1 [] (by rfl)⟩

/-- C7: a successful `list_entries` returns exactly the top-level names
that do not start with '.', in enumeration order: every returned name is
dot-free, and every enumerated dot-free name is returned. -/
theorem list_entries_exactly_undotted (env : Env) (s : St)
    (names : List String) (s' : St) (t : List Event)
    (h : list_entries env s = (Except.ok names, s', t)) :
    names = (s.workdir.map Prod.fst).filter (fun n => !(startsWithDot n)) ∧
    (∀ n ∈ names, startsWithDot n = false) ∧
    (∀ n ∈ s.workdir.map Prod.fst, startsWithDot n = false → n ∈ names) := by
  rcases hrd : env.readDirOk <;>
    simp [list_entries, mBind, mGet, mPure, mThrow, hrd] at h
  obtain ⟨hn, -, -⟩ := h
  have hn' : names =
      (s.workdir.map Prod.fst).filter (fun n => !(startsWithDot n)) := by
    rw [← hn, foldl_push_eq_filter]
    simp
  subst hn'
  refine ⟨rfl, ?_, ?_⟩
  · intro n hm
    have := List.of_mem_filter hm
    simpa using this
  · intro n hm hdot
    exact List.mem_filter.mpr ⟨hm, by simp [hdot]⟩

/-- Witness for C7: listing the concrete state `st1` yields exactly its
one undotted entry. -/
theorem list_entries_exactly_undotted_witness :
    ["20200102-030405"]
        = (st1.workdir.map Prod.fst).filter (fun n => !(startsWithDot n)) ∧
    (∀ n ∈ ["20200102-030405"], startsWithDot n = false) ∧
    (∀ n ∈ st1.workdir.map Prod.fst, startsWithDot n = false →
      n ∈ ["20200102-030405"]) :=
  list_entries_exactly_undotted env0 st1 ["20200102-030405"] st1 [] (by rfl)

/-- C5 counterexample: with everything available except gpg, create
allocates its temp file as its very first action; the missing-tool
failure happens only at the encryption step, after the temp file,
the editor run and the recipient read — the gpg lookup is traced last,
not before the temp-file creation. -/
theorem create_tmpfile_created_before_gpg_discovery :
    create_entry { env0 with gpgPath := none } st0
      = (Except.error (Err.toolNotFound "gpg executable not found in PATH"),
         st0, [Event.tmpCreate, Event.editorRun, Event.readGpgId,
               Event.gpgLookup]) ∧
    [Event.tmpCreate, Event.editorRun, Event.readGpgId,
      Event.gpgLookup].head? = some Event.tmpCreate :=
  ⟨by rfl, rfl⟩

/-- C5 (amended): tool discovery does not precede temp-file creation in
create — there the temp file is always the first traced action, and any
gpg lookup comes later; in update, by contrast, the gpg lookup performed
inside the initial decrypt is the very first traced action, so there it
does precede the temp file. -/
theorem tool_discovery_order (env : Env) (name : String) (s : St) :
    (∀ r s' t, create_entry env s = (r, s', t) →
      Event.gpgLookup ∈ t → t.head? = some Event.tmpCreate) ∧
    (∀ r s' t, update_entry env name s = (r, s', t) →
      ∃ t', t = Event.gpgLookup :: t') := by
  constructor
  · intro r s' t h hg
    rcases hc : env.tmpCreateOk
    · simp [create_entry, mBind, mThrow, hc] at h
      obtain ⟨-, -, rfl⟩ := h
      cases hg
    · have hstep : (if env.tmpCreateOk = true then mTell Event.tmpCreate
          else mThrow Err.ioOther) = mTell Event.tmpCreate := by
        simp [hc]
      unfold create_entry at h
      rw [hstep] at h
      obtain ⟨t', rfl⟩ := mBind_tell_trace h
      rfl
  · intro r s' t h
    unfold update_entry at h
    rcases mBind_inv h with ⟨e, he, hx⟩ | ⟨a, s₁, t₁, t₂, hx, hf, rfl⟩
    · obtain ⟨-, ht⟩ := decrypt_entry_inv hx
      rcases ht with rfl | rfl
      · exact ⟨[], rfl⟩
      · exact ⟨[Event.decryptRun], rfl⟩
    · obtain ⟨-, ht⟩ := decrypt_entry_inv hx
      rcases ht with rfl | rfl
      · exact ⟨t₂, rfl⟩
      · exact ⟨Event.decryptRun :: t₂, rfl⟩

/-- Witness for the amended C5: in a fully successful concrete update
run the first traced action is the gpg lookup. -/
theorem tool_discovery_order_witness :
    ∃ t', (update_entry env0 "20200102-030405" st1).2.2
      = Event.gpgLookup :: t' :=
  (tool_discovery_order env0 "20200102-030405" st1).2
    (update_entry env0 "20200102-030405" st1).1
    (update_entry env0 "20200102-030405" st1).2.1
    (update_entry env0 "20200102-030405" st1).2.2 (by rfl)

/-! ## Lemmas about `rustTrim` and trace membership -/

theorem dropWhile_head_not (l : List Char) (c : Char)
    (h : (l.dropWhile isWS).head? = some c) : isWS c = false := by
  induction l with
  | nil => cases h
  | cons a tl ih =>
    by_cases ha : isWS a = true
    · rw [List.dropWhile_cons_of_pos ha] at h
      exact ih h
    · rw [List.dropWhile_cons_of_neg ha] at h
      cases h
      simpa using ha

theorem dropWhile_getLast (p : Char → Bool) (l : List Char) :
    l.dropWhile p = [] ∨ (l.dropWhile p).getLast? = l.getLast? := by
  induction l with
  | nil => exact Or.inl rfl
  | cons a tl ih =>
    by_cases ha : p a = true
    · rw [List.dropWhile_cons_of_pos ha]
      rcases htl : tl.dropWhile p with _ | ⟨b, tb⟩
      · exact Or.inl rfl
      · right
        rcases ih with h | h
        · rw [htl] at h
          cases h
        · rw [htl] at h
          rw [h]
          rcases tl with _ | ⟨x, xs⟩
          · cases htl
          · rw [List.getLast?_cons_cons]
    · rw [List.dropWhile_cons_of_neg ha]
      exact Or.inr rfl

/-- The result of `rustTrim` never starts or ends in whitespace. -/
theorem rustTrim_ends (s : String) :
    (∀ c, (rustTrim s).data.head? = some c → isWS c = false) ∧
    (∀ c, (rustTrim s).data.getLast? = some c → isWS c = false) := by
  constructor
  · intro c hc
    rw [rustTrim] at hc
    simp only [List.head?_reverse] at hc
    rcases dropWhile_getLast isWS (s.data.dropWhile isWS).reverse with h | h
    · rw [h] at hc
      cases hc
    · rw [h] at hc
      rw [List.getLast?_reverse] at hc
      exact dropWhile_head_not _ _ hc
  · intro c hc
    rw [rustTrim] at hc
    simp only [List.getLast?_reverse] at hc
    exact dropWhile_head_not _ _ hc

theorem tmpStep_inv {env : Env} {s s' : St} {r : Except Err Unit}
    {t : List Event}
    (h : (if env.tmpCreateOk then mTell Event.tmpCreate
          else mThrow Err.ioOther) s = (r, s', t)) :
    s' = s ∧ (t = [] ∨ t = [Event.tmpCreate]) := by
  rcases hc : env.tmpCreateOk <;> simp [hc, mTell, mThrow] at h <;>
    obtain ⟨-, rfl, rfl⟩ := h <;> simp

theorem tmpWrite_inv {env : Env} {s s' : St} {r : Except Err Unit}
    {t : List Event}
    (h : (if env.tmpWriteOk then mPure () else mThrow Err.ioOther) s
      = (r, s', t)) :
    s' = s ∧ t = [] := by
  rcases hc : env.tmpWriteOk <;> simp [hc, mPure, mThrow] at h <;>
    obtain ⟨-, rfl, rfl⟩ := h <;> simp

theorem mTell_inv {e : Event} {s s' : St} {r : Except Err Unit}
    {t : List Event} (h : mTell e s = (r, s', t)) :
    s' = s ∧ t = [e] := by
  simp [mTell] at h
  obtain ⟨-, rfl, rfl⟩ := h
  exact ⟨rfl, rfl⟩

/-- No gpg encryption run is traced by `commit_change`. -/
theorem commit_change_noEnc {env : Env} {file : String} {change : Change}
    {initial : Bool} {s s' : St} {r : Except Err Unit} {t : List Event}
    (h : commit_change env file change initial s = (r, s', t)) :
    noEncryptEv t := by
  cases r with
  | error e =>
    obtain ⟨-, -, rfl⟩ := commit_change_err_inv h
    intro m hm
    cases hm
  | ok a =>
    cases a
    obtain ⟨ni, ps, -, rfl, -, -, -, -⟩ := commit_change_ok_inv h
    intro m hm
    simp at hm

/-- Any encryptRun event traced by `encrypt_entry` carries the trimmed
recipient id it was called with. -/
theorem encrypt_entry_recipient {env : Env} {name gid : String} {s s' : St}
    {r : Except Err Unit} {t : List Event} {rec : String}
    (h : encrypt_entry env name gid s = (r, s', t))
    (hm : Event.encryptRun rec ∈ t) : rec = rustTrim gid := by
  obtain ⟨ht, -⟩ := encrypt_entry_inv h
  rcases ht with rfl | rfl <;> simp_all

/-- Splitting an event occurrence in a `mBind` run into "in the first
computation" or "in the continuation, launched from the first
computation's final state". -/
theorem mem_mBind_cases {α β : Type} {x : M α} {f : α → M β} {s s' : St}
    {r : Except Err β} {t : List Event} {ev : Event}
    (h : mBind x f s = (r, s', t)) (hm : ev ∈ t) :
    (∃ rx sx tx, x s = (rx, sx, tx) ∧ ev ∈ tx) ∨
    (∃ a sx tx rx' tx', x s = (Except.ok a, sx, tx) ∧ f a sx = (rx', s', tx') ∧
      ev ∈ tx') := by
  rcases mBind_inv h with ⟨e, -, hx⟩ | ⟨a, s₁, t₁, t₂, hx, hf, rfl⟩
  · exact Or.inl ⟨_, _, _, hx, hm⟩
  · rcases List.mem_append.mp hm with hm | hm
    · exact Or.inl ⟨_, _, _, hx, hm⟩
    · exact Or.inr ⟨a, s₁, t₁, _, t₂, hx, hf, hm⟩

/-- C9: whenever create or update invokes gpg to encrypt, the recipient
argument passed to the tool is exactly the full text of the `.gpg_id`
metadata file with surrounding whitespace trimmed — and a trimmed string
has no leading or trailing whitespace left, so a trailing newline or
surrounding spaces in the file never reach the recipient argument. -/
theorem encrypt_recipient_is_trimmed_gpg_id (env : Env) (name : String)
    (s : St) (content : Content)
    (hc : lookupFile s.workdir GPG_ID_FILE_NAME = some content) :
    (∀ r s' t rec, create_entry env s = (r, s', t) →
      Event.encryptRun rec ∈ t → rec = rustTrim content) ∧
    (∀ r s' t rec, update_entry env name s = (r, s', t) →
      Event.encryptRun rec ∈ t → rec = rustTrim content) ∧
    (∀ c, (rustTrim content).data.head? = some c → isWS c = false) ∧
    (∀ c, (rustTrim content).data.getLast? = some c → isWS c = false) := by
  refine ⟨?_, ?_, (rustTrim_ends content).1, (rustTrim_ends content).2⟩
  · intro r s' t rec h hm
    unfold create_entry at h
    rcases mem_mBind_cases h hm with ⟨r1, s1, t1, hx, hm1⟩ |
      ⟨a1, s1, t1, r1, t2, hx, hk1, hmk1⟩
    · obtain ⟨-, ht⟩ := tmpStep_inv hx
      rcases ht with rfl | rfl <;> simp_all
    · obtain ⟨rfl, -⟩ := tmpStep_inv hx
      rcases mem_mBind_cases hk1 hmk1 with ⟨r2, s2, t3, hx2, hm2⟩ |
        ⟨a2, s2, t3, r2, t4, hx2, hk2, hmk2⟩
      · obtain ⟨-, ht⟩ := open_editor_inv hx2
        rcases ht with rfl | rfl <;> simp_all
      · obtain ⟨rfl, -⟩ := open_editor_inv hx2
        rcases mem_mBind_cases hk2 hmk2 with ⟨r3, s3, t5, hx3, hm3⟩ |
          ⟨gid, s3, t5, r3, t6, hx3, hk3, hmk3⟩
        · obtain ⟨-, ht, -⟩ := gpg_id_inv hx3
          rcases ht with rfl | rfl <;> simp_all
        · obtain ⟨rfl, -, hgid⟩ := gpg_id_inv hx3
          have hgc : gid = content := by
            have hthis := hgid gid rfl
            rw [hc] at hthis
            exact (Option.some.injEq ..).mp hthis.symm
          subst hgc
          rcases mem_mBind_cases hk3 hmk3 with ⟨r4, s4, t7, hx4, hm4⟩ |
            ⟨a4, s4, t7, r4, t8, hx4, hk4, hmk4⟩
          · exact encrypt_entry_recipient hx4 hm4
          · rcases mem_mBind_cases hk4 hmk4 with ⟨r5, s5, t9, hx5, hm5⟩ |
              ⟨a5, s5, t9, r5, t10, hx5, hk5, hmk5⟩
            · obtain ⟨-, rfl⟩ := mTell_inv hx5
              simp_all
            · exact absurd hmk5 (commit_change_noEnc hk5 rec)
  · intro r s' t rec h hm
    unfold update_entry at h
    rcases mem_mBind_cases h hm with ⟨r1, s1, t1, hx, hm1⟩ |
      ⟨a1, s1, t1, r1, t2, hx, hk1, hmk1⟩
    · obtain ⟨-, ht⟩ := decrypt_entry_inv hx
      rcases ht with rfl | rfl <;> simp_all
    · obtain ⟨rfl, -⟩ := decrypt_entry_inv hx
      rcases mem_mBind_cases hk1 hmk1 with ⟨r2, s2, t3, hx2, hm2⟩ |
        ⟨a2, s2, t3, r2, t4, hx2, hk2, hmk2⟩
      · obtain ⟨-, ht⟩ := tmpStep_inv hx2
        rcases ht with rfl | rfl <;> simp_all
      · obtain ⟨rfl, -⟩ := tmpStep_inv hx2
        rcases mem_mBind_cases hk2 hmk2 with ⟨r3, s3, t5, hx3, hm3⟩ |
          ⟨a3, s3, t5, r3, t6, hx3, hk3, hmk3⟩
        · obtain ⟨-, rfl⟩ := tmpWrite_inv hx3
          cases hm3
        · obtain ⟨rfl, -⟩ := tmpWrite_inv hx3
          rcases mem_mBind_cases hk3 hmk3 with ⟨r4, s4, t7, hx4, hm4⟩ |
            ⟨a4, s4, t7, r4, t8, hx4, hk4, hmk4⟩
          · obtain ⟨-, ht⟩ := open_editor_inv hx4
            rcases ht with rfl | rfl <;> simp_all
          · obtain ⟨rfl, -⟩ := open_editor_inv hx4
            rcases mem_mBind_cases hk4 hmk4 with ⟨r5, s5, t9, hx5, hm5⟩ |
              ⟨gid, s5, t9, r5, t10, hx5, hk5, hmk5⟩
            · obtain ⟨-, ht, -⟩ := gpg_id_inv hx5
              rcases ht with rfl | rfl <;> simp_all
            · obtain ⟨rfl, -, hgid⟩ := gpg_id_inv hx5
              have hgc : gid = content := by
                have hthis := hgid gid rfl
                rw [hc] at hthis
                exact (Option.some.injEq ..).mp hthis.symm
              subst hgc
              rcases mem_mBind_cases hk5 hmk5 with ⟨r6, s6, t11, hx6, hm6⟩ |
                ⟨a6, s6, t11, r6, t12, hx6, hk6, hmk6⟩
              · exact encrypt_entry_recipient hx6 hm6
              · rcases mem_mBind_cases hk6 hmk6 with ⟨r7, s7, t13, hx7, hm7⟩ |
                  ⟨a7, s7, t13, r7, t14, hx7, hk7, hmk7⟩
                · obtain ⟨-, rfl⟩ := mTell_inv hx7
                  simp_all
                · exact absurd hmk7 (commit_change_noEnc hk7 rec)

/-- Witness for C9: a concrete successful create run on `st0` (stored id
"key@example.com\n") passes exactly the trimmed recipient
"key@example.com" to gpg. -/
theorem encrypt_recipient_is_trimmed_gpg_id_witness :
    lookupFile st0.workdir GPG_ID_FILE_NAME = some "key@example.com\n" ∧
    "key@example.com" = rustTrim "key@example.com\n" :=
  ⟨rfl,
    (encrypt_recipient_is_trimmed_gpg_id env0 "n" st0 "key@example.com\n"
        (by rfl)).1
      (create_entry env0 st0).1 (create_entry env0 st0).2.1
      (create_entry env0 st0).2.2 "key@example.com" (by rfl) (by decide)⟩

/-- C1 (violated by the code): `decrypt_entry` takes
`.output()?.stdout` without consulting the child's exit status.  On a
concrete read of a name absent from the working directory — exactly the
read-after-delete situation — with gpg reporting failure (non-zero
exit) and printing nothing, `read_entry` returns `Ok` of empty content
instead of a `ToolFailed`/`NotFound` error. -/
theorem read_entry_ok_empty_when_tool_fails :
    ({ env0 with decryptExit := false, decryptStdout := "" }).decryptExit
        = false ∧
    lookupFile st0.workdir "20200102-030405" = none ∧
    read_entry { env0 with decryptExit := false, decryptStdout := "" }
        "20200102-030405" st0
      = (Except.ok "", st0, [Event.gpgLookup, Event.decryptRun]) :=
  ⟨rfl, rfl, rfl⟩

/-- Association-list update then lookup at the same key yields the new
value. -/
theorem lookupFile_setFile_self (l : List (String × Content)) (k : String)
    (v : Content) : lookupFile (setFile l k v) k = some v := by
  induction l with
  | nil => simp [setFile, lookupFile]
  | cons p tl ih =>
    obtain ⟨k', v'⟩ := p
    by_cases hk : k' = k
    · simp [setFile, lookupFile, hk]
    · simp [setFile, lookupFile, hk, ih]

/-- Full success characterization of `create_entry`: the entry named by
the formatted timestamp holds the fresh ciphertext in both the working
directory and the index, and one Add commit child of the prior HEAD was
appended. -/
theorem create_entry_ok_inv {env : Env} {s s' : St} {t : List Event}
    (h : create_entry env s = (Except.ok (), s', t)) :
    ∃ p, s.head = some p ∧
      s' = { workdir := setFile s.workdir (formatTimestamp env.now)
               env.encryptResult,
             index := setFile s.index (formatTimestamp env.now)
               env.encryptResult,
             commits := s.commits ++
               [{ parents := [p],
                  message := commitMessage Change.Add
                    (formatTimestamp env.now),
                  tree := setFile s.index (formatTimestamp env.now)
                    env.encryptResult }],
             head := some s.commits.length } := by
  unfold create_entry at h
  rcases mBind_inv h with ⟨e, he, -⟩ | ⟨a1, s1, t1, t2, hx1, g1, -⟩
  · cases he
  obtain ⟨rfl, -⟩ := tmpStep_inv hx1
  rcases mBind_inv g1 with ⟨e, he, -⟩ | ⟨a2, s2, t3, t4, hx2, g2, -⟩
  · cases he
  obtain ⟨rfl, -⟩ := open_editor_inv hx2
  rcases mBind_inv g2 with ⟨e, he, -⟩ | ⟨gid, s3, t5, t6, hx3, g3, -⟩
  · cases he
  obtain ⟨rfl, -, -⟩ := gpg_id_inv hx3
  rcases mBind_inv g3 with ⟨e, he, -⟩ | ⟨a4, s4, t7, t8, hx4, g4, -⟩
  · cases he
  obtain ⟨-, hok, -, -, -, -⟩ := encrypt_entry_inv hx4
  cases a4
  obtain rfl := hok rfl
  rcases mBind_inv g4 with ⟨e, he, -⟩ | ⟨a5, s5, t9, t10, hx5, g5, -⟩
  · cases he
  obtain ⟨rfl, -⟩ := mTell_inv hx5
  obtain ⟨ni, ps, rfl, -, -, hni, -, hnd⟩ := commit_change_ok_inv g5
  obtain ⟨p, hp, rfl⟩ := hni rfl
  obtain ⟨c, hcl, rfl⟩ := hnd (by intro hcontra; cases hcontra)
  rw [lookupFile_setFile_self] at hcl
  cases hcl
  exact ⟨p, hp, rfl⟩

/-- C10: two successful creates in the same wall-clock second derive the
same timestamp name; the cipher tool runs with the force-overwrite flag
"--yes", the second run's ciphertext replaces the first at that single
name, and two Add commits for the same name are recorded — two
successful creates do not guarantee two distinct entries. -/
theorem create_twice_same_second_overwrites (env₁ env₂ : Env) (s s₁ s₂ : St)
    (t₁ t₂ : List Event)
    (hsec : sameSecond env₁.now env₂.now)
    (h₁ : create_entry env₁ s = (Except.ok (), s₁, t₁))
    (h₂ : create_entry env₂ s₁ = (Except.ok (), s₂, t₂)) :
    formatTimestamp env₂.now = formatTimestamp env₁.now ∧
    lookupFile s₂.workdir (formatTimestamp env₁.now)
        = some env₂.encryptResult ∧
    (∃ c₁ c₂, s₂.commits = s.commits ++ [c₁, c₂] ∧
      c₁.message = "Add " ++ formatTimestamp env₁.now ∧
      c₂.message = "Add " ++ formatTimestamp env₁.now) ∧
    "--yes" ∈ GPG_OPTS := by
  have hts : formatTimestamp env₂.now = formatTimestamp env₁.now := by
    obtain ⟨e1, e2, e3, e4, e5, e6⟩ := hsec
    simp [formatTimestamp, e1, e2, e3, e4, e5, e6]
  obtain ⟨p₁, hp₁, rfl⟩ := create_entry_ok_inv h₁
  obtain ⟨p₂, hp₂, rfl⟩ := create_entry_ok_inv h₂
  rw [hts]
  refine ⟨rfl, lookupFile_setFile_self _ _ _, ?_, by decide⟩
  exact ⟨{ parents := [p₁],
           message := commitMessage Change.Add (formatTimestamp env₁.now),
           tree := setFile s.index (formatTimestamp env₁.now)
             env₁.encryptResult },
         { parents := [p₂],
           message := commitMessage Change.Add (formatTimestamp env₁.now),
           tree := setFile (setFile s.index (formatTimestamp env₁.now)
               env₁.encryptResult) (formatTimestamp env₁.now)
             env₂.encryptResult },
         by simp, rfl, rfl⟩

/-- Witness for C10: concretely, a second create half a second after the
first overwrites the entry ciphertext at the shared timestamp name, and
the force-overwrite flag is among the gpg options. -/
theorem create_twice_same_second_overwrites_witness :
    lookupFile (create_entry { env0 with encryptResult := "CIPHERTEXT2", now := { env0.now with nanos := 500 } } (create_entry env0 st0).2.1).2.1.workdir (formatTimestamp env0.now)
      = some "CIPHERTEXT2" ∧
    "--yes" ∈ GPG_OPTS := by
  have hmain := create_twice_same_second_overwrites env0
    { env0 with encryptResult := "CIPHERTEXT2", now := { env0.now with nanos := 500 } }
    st0 (create_entry env0 st0).2.1
    (create_entry { env0 with encryptResult := "CIPHERTEXT2", now := { env0.now with nanos := 500 } } (create_entry env0 st0).2.1).2.1
    (create_entry env0 st0).2.2
    (create_entry { env0 with encryptResult := "CIPHERTEXT2", now := { env0.now with nanos := 500 } } (create_entry env0 st0).2.1).2.2
    (by decide) (by rfl) (by rfl)
  exact ⟨hmain.2.1, hmain.2.2.2⟩

end Deary
